import Mathlib

/-!
Verification of the decode pipeline of redis-port (`cmd/decode.go`).

Shallow embedding conventions:
* Go byte strings (`[]byte`, and Go strings, which are byte sequences)
  are modelled as `List Nat`, each element a byte value; hypotheses
  `x < 256` appear where byte-ness matters.
* `uint32` / `uint64` fields (`DB`, `ExpireAt`) are carried, never
  computed with, so they are plain `Nat`.
* A zset score is a Go `float64`; it is carried through unchanged, so it
  is a Lean `Float`.
* The external payload decoder `rdb.DecodeDump` is a collaborator: its
  result is modelled as a value of the sum type `Decoded`, and worker
  runs are parametrised by a decoding function.
-/

/-- One input record, mirroring `rdb.BinEntry` as used by `decoderMain`:
`e.DB`, `e.Key`, `e.ExpireAt` and the raw dump payload `e.Value`. -/
structure BinEntry where
  db : Nat
  key : List Nat
  expireAt : Nat
  value : List Nat

/-- The byte-wise sanitization step of `toText` (decode.go lines 123-130):
a byte in the printable range `'#'`(35) .. `'~'`(126) is kept, every
other byte becomes `'.'`(46). -/
def sanitizeByte (c : Nat) : Nat :=
  if 35 ≤ c ∧ c ≤ 126 then c else 46

/-- The function `toText` (decode.go lines 121-132): sanitize every byte
of `p`. -/
def toText (p : List Nat) : List Nat :=
  p.map sanitizeByte

/-- Base64 alphabet of `base64.StdEncoding`: index 0-25 ↦ `A`-`Z`,
26-51 ↦ `a`-`z`, 52-61 ↦ `0`-`9`, 62 ↦ `+`, 63 ↦ `/`. -/
def b64enc (i : Nat) : Nat :=
  if i < 26 then 65 + i
  else if i < 52 then 97 + (i - 26)
  else if i < 62 then 48 + (i - 52)
  else if i = 62 then 43
  else 47

/-- Inverse of the Base64 alphabet: maps an alphabet byte back to its
6-bit value (anything outside the alphabet maps to 0). -/
def b64dec (c : Nat) : Nat :=
  if 65 ≤ c ∧ c ≤ 90 then c - 65
  else if 97 ≤ c ∧ c ≤ 122 then 26 + (c - 97)
  else if 48 ≤ c ∧ c ≤ 57 then 52 + (c - 48)
  else if c = 43 then 62
  else if c = 47 then 63
  else 0

/-- Modelled from the spec: `toBase64` (decode.go lines 133-135) calls
`base64.StdEncoding.EncodeToString`, whose implementation lives in the
Go standard library, not in this repository.  This is standard (RFC
4648) Base64 with `=`(61) padding: each 3-byte group becomes 4 alphabet
bytes; a trailing 2-byte group becomes 3 alphabet bytes plus one pad; a
trailing 1-byte group becomes 2 alphabet bytes plus two pads. -/
def encodeB64 : List Nat → List Nat
  | [] => []
  | [a] => [b64enc (a / 4), b64enc (a % 4 * 16), 61, 61]
  | [a, b] => [b64enc (a / 4), b64enc (a % 4 * 16 + b / 16), b64enc (b % 16 * 4), 61]
  | a :: b :: c :: rest =>
      b64enc (a / 4) :: b64enc (a % 4 * 16 + b / 16) ::
        b64enc (b % 16 * 4 + c / 64) :: b64enc (c % 64) :: encodeB64 rest

/-- Modelled from the spec: standard Base64 decoding (the inverse
direction of `base64.StdEncoding`, again Go standard library code): each
4-byte group yields 3 bytes, or fewer at the end according to the `=`
padding. -/
def decodeB64 : List Nat → List Nat
  | w :: x :: y :: z :: rest =>
      if y = 61 then [b64dec w * 4 + b64dec x / 16]
      else if z = 61 then
        [b64dec w * 4 + b64dec x / 16, b64dec x % 16 * 16 + b64dec y / 4]
      else
        (b64dec w * 4 + b64dec x / 16) ::
          (b64dec x % 16 * 16 + b64dec y / 4) ::
          (b64dec y % 4 * 64 + b64dec z) :: decodeB64 rest
  | _ => []

/-- The function `toBase64` (decode.go lines 133-135). -/
def toBase64 (p : List Nat) : List Nat :=
  encodeB64 p

/-- The typed result of `rdb.DecodeDump` as consumed by the `switch` in
`decoderMain` (decode.go lines 149-231): `rdb.String`, `rdb.List`,
`rdb.Hash` (field/value pairs), `rdb.Set`, `rdb.ZSet` (member/score
pairs). -/
inductive RdbObject where
  | str (v : List Nat)
  | list (xs : List (List Nat))
  | hash (ps : List (List Nat × List Nat))
  | set (ms : List (List Nat))
  | zset (es : List (List Nat × Float))

/-- One output line, i.e. the struct serialized by one
`fmt.Fprintf(&b, "%s\n", toJson(o))` call.  Each constructor carries
exactly the fields of the corresponding anonymous Go struct; the
constant `Type` field (`"string"`, `"list"`, ...) is recovered by
`lineType`.  `json.Marshal` (Go standard library) is injective on these
structs, so a line is modelled by its field values. -/
inductive OutputLine where
  | stringLine (db expireAt : Nat) (key key64 value64 : List Nat)
  | listLine (db expireAt : Nat) (key key64 : List Nat) (index : Nat) (value64 : List Nat)
  | hashLine (db expireAt : Nat) (key key64 field field64 value64 : List Nat)
  | setLine (db expireAt : Nat) (key key64 member member64 : List Nat)
  | zsetLine (db expireAt : Nat) (key key64 member member64 : List Nat) (score : Float)

/-- The constant `Type` field of the Go struct behind a line, as bytes
(`"string"`, `"list"`, `"hash"`, `"set"`, `"zset"`). -/
def lineType : OutputLine → List Nat
  | .stringLine .. => [115, 116, 114, 105, 110, 103]
  | .listLine .. => [108, 105, 115, 116]
  | .hashLine .. => [104, 97, 115, 104]
  | .setLine .. => [115, 101, 116]
  | .zsetLine .. => [122, 115, 101, 116]

/-- The line built in the `rdb.String` case (decode.go lines 152-164). -/
def stringLineOf (e : BinEntry) (v : List Nat) : OutputLine :=
  .stringLine e.db e.expireAt (toText e.key) (toBase64 e.key) (toBase64 v)

/-- The line built for index `i`, element `v` in the `rdb.List` case
(decode.go lines 165-180). -/
def listLineOf (e : BinEntry) (i : Nat) (v : List Nat) : OutputLine :=
  .listLine e.db e.expireAt (toText e.key) (toBase64 e.key) i (toBase64 v)

/-- The line built for one field/value pair in the `rdb.Hash` case
(decode.go lines 181-197). -/
def hashLineOf (e : BinEntry) (p : List Nat × List Nat) : OutputLine :=
  .hashLine e.db e.expireAt (toText e.key) (toBase64 e.key)
    (toText p.1) (toBase64 p.1) (toBase64 p.2)

/-- The line built for one member in the `rdb.Set` case (decode.go
lines 198-213). -/
def setLineOf (e : BinEntry) (m : List Nat) : OutputLine :=
  .setLine e.db e.expireAt (toText e.key) (toBase64 e.key) (toText m) (toBase64 m)

/-- The line built for one member/score pair in the `rdb.ZSet` case
(decode.go lines 214-230). -/
def zsetLineOf (e : BinEntry) (p : List Nat × Float) : OutputLine :=
  .zsetLine e.db e.expireAt (toText e.key) (toBase64 e.key)
    (toText p.1) (toBase64 p.1) p.2

/-- The sequence of lines accumulated into the buffer `b` for one
record (the `switch` of decode.go lines 149-231): one line for a
string, one line per element (in iteration order of the Go `range`
loops) for the containers. -/
def flatten (e : BinEntry) : RdbObject → List OutputLine
  | .str v => [stringLineOf e v]
  | .list xs => xs.enum.map (fun iv => listLineOf e iv.1 iv.2)
  | .hash ps => ps.map (hashLineOf e)
  | .set ms => ms.map (setLineOf e)
  | .zset es => es.map (zsetLineOf e)

/-- The element count the spec attributes to a decoded value: 1 for a
scalar, the element count of the container otherwise. -/
def outputCount : RdbObject → Nat
  | .str _ => 1
  | .list xs => xs.length
  | .hash ps => ps.length
  | .set ms => ms.length
  | .zset es => es.length

/-- An observable action of a Decode Worker on the shared state: `incr`
is `cmd.nentry.Incr()`; `push lines` is `opipe <- b.String()`, the send
of ONE channel element whose payload is the whole buffer accumulated
for the record (its lines in order). -/
inductive WorkerAction where
  | incr
  | push (payload : List OutputLine)

/-- The per-record tail of the worker loop (decode.go lines 232-233):
after the buffer for the record is built, the worker first runs
`cmd.nentry.Incr()` and then sends `b.String()` — a single element —
on `opipe`. -/
def processEntry (e : BinEntry) (o : RdbObject) : List WorkerAction :=
  [WorkerAction.incr, WorkerAction.push (flatten e o)]

/-- Number of channel sends in a worker trace. -/
def countPush : List WorkerAction → Nat
  | [] => 0
  | .push _ :: t => countPush t + 1
  | .incr :: t => countPush t

/-- Number of `nentry` increments in a worker trace. -/
def countIncr : List WorkerAction → Nat
  | [] => 0
  | .incr :: t => countIncr t + 1
  | .push _ :: t => countIncr t

/-- The trace of one worker (the loop `for e := range ipipe` of
`decoderMain`) over the sub-stream of records it receives, with each
record paired with its already-decoded value. -/
def workerRun : List (BinEntry × RdbObject) → List WorkerAction
  | [] => []
  | p :: t => processEntry p.1 p.2 ++ workerRun t

/-- A small concrete worker assignment used to witness C2: worker 1
gets two records, worker 2 gets one. -/
def sampleStreams : List (List (BinEntry × RdbObject)) :=
  [[(⟨0, [], 0, []⟩, RdbObject.str [97]), (⟨1, [], 0, []⟩, RdbObject.set [])],
   [(⟨2, [], 0, []⟩, RdbObject.list [[98]])]]

/-- What claim C5 asserts the worker does per record: send each
serialized OutputItem as its own queue element, and increment the
counter only after those sends. -/
def pushEachThenIncr (e : BinEntry) (o : RdbObject) : List WorkerAction :=
  (flatten e o).map (fun l => WorkerAction.push [l]) ++ [WorkerAction.incr]

/-- Whether a decoded value is one of the container kinds. -/
def isContainer : RdbObject → Bool
  | .str _ => false
  | _ => true

/-- Byte length of the string the buffer holds for the given lines:
each line contributes its JSON rendering plus the trailing newline
(`fmt.Fprintf(&b, "%s\n", toJson o)`).  The JSON renderer
(`json.Marshal`, Go standard library) is abstracted as `ser`. -/
def bufLen (ser : OutputLine → List Nat) (lines : List OutputLine) : Nat :=
  (lines.map (fun l => (ser l).length + 1)).sum

/-- The raw result of `rdb.DecodeDump` before the `switch`: either one
of the five handled kinds, or a value of some other kind (the `default`
branch of the switch). -/
inductive Decoded where
  | obj (o : RdbObject)
  | other

/-- One iteration of the worker loop for entry `e` (decode.go lines
143-231), with the external decoder abstracted as `dec` (`none` models
a `DecodeDump` error): a decode error (`log.PanicError`, line 146) and
an unhandled kind (`log.Panicf`, line 151) are both fatal, so the
result is `none`; otherwise the lines of the record. -/
def decodeEntry (dec : List Nat → Option Decoded) (e : BinEntry) :
    Option (List OutputLine) :=
  match dec e.value with
  | none => none
  | some Decoded.other => none
  | some (Decoded.obj o) => some (flatten e o)

/-- The run of a worker over its record stream, with abort tracking:
the returned list holds the per-record line lists actually produced,
and the flag is `true` when the run died on a fatal decode error, in
which case no later record was processed at all. -/
def runWorkerT (dec : List Nat → Option Decoded) :
    List BinEntry → List (List OutputLine) × Bool
  | [] => ([], false)
  | e :: rest =>
      match decodeEntry dec e with
      | none => ([], true)
      | some lines =>
          let r := runWorkerT dec rest
          (lines :: r.1, r.2)

/-- A mutation of the shared counters, as performed somewhere in the
pipeline: `readBytes n` is the `rbytes` addition done by the Loader
(modelled from the spec: `newRDBLoader` lives outside this source file,
and the spec says the Loader tracks bytes consumed), `wroteBytes n` is
`cmd.wbytes.Add(int64(len(s)))` in the writer goroutine (decode.go line
91, a Go `len`, hence a non-negative amount), and `entryDone` is
`cmd.nentry.Incr()` in a worker (decode.go line 232). -/
inductive CounterEvent where
  | readBytes (n : Nat)
  | wroteBytes (n : Nat)
  | entryDone

/-- The three shared counters of `cmdDecode`. -/
structure Counters where
  rbytes : Nat
  wbytes : Nat
  nentry : Nat

/-- Effect of one mutation on the counters. -/
def applyEvent (s : Counters) : CounterEvent → Counters
  | .readBytes n => ⟨s.rbytes + n, s.wbytes, s.nentry⟩
  | .wroteBytes n => ⟨s.rbytes, s.wbytes + n, s.nentry⟩
  | .entryDone => ⟨s.rbytes, s.wbytes, s.nentry + 1⟩

/-- Counter values after a sequence of mutations, starting from zero. -/
def runCounters (evs : List CounterEvent) : Counters :=
  evs.foldl applyEvent ⟨0, 0, 0⟩

/-- Model of `cmdDecode.Stat` (decode.go lines 29-35): the read done by
the monitor — a pure copy of the three counters, no mutation. -/
def statOf (s : Counters) : Counters :=
  ⟨s.rbytes, s.wbytes, s.nentry⟩

/-- Pointwise order on counter snapshots. -/
def counterLE (a b : Counters) : Prop :=
  a.rbytes ≤ b.rbytes ∧ a.wbytes ≤ b.wbytes ∧ a.nentry ≤ b.nentry

theorem b64dec_b64enc : ∀ i < 64, b64dec (b64enc i) = i := by decide

theorem b64enc_ne_pad : ∀ i < 64, b64enc i ≠ 61 := by decide

theorem decodeB64_encodeB64 :
    ∀ p : List Nat, (∀ x ∈ p, x < 256) → decodeB64 (encodeB64 p) = p
  | [], _ => rfl
  | [a], h => by
      have ha : a < 256 := h a (by simp)
      have h1 : b64dec (b64enc (a / 4)) = a / 4 := b64dec_b64enc _ (by omega)
      have h2 : b64dec (b64enc (a % 4 * 16)) = a % 4 * 16 := b64dec_b64enc _ (by omega)
      simp [encodeB64, decodeB64, h1, h2]
      omega
  | [a, b], h => by
      have ha : a < 256 := h a (by simp)
      have hb : b < 256 := h b (by simp)
      have h1 : b64dec (b64enc (a / 4)) = a / 4 := b64dec_b64enc _ (by omega)
      have h2 : b64dec (b64enc (a % 4 * 16 + b / 16)) = a % 4 * 16 + b / 16 :=
        b64dec_b64enc _ (by omega)
      have h3 : b64dec (b64enc (b % 16 * 4)) = b % 16 * 4 := b64dec_b64enc _ (by omega)
      have hy : b64enc (b % 16 * 4) ≠ 61 := b64enc_ne_pad _ (by omega)
      simp [encodeB64, decodeB64, hy, h1, h2, h3]
      constructor
      · omega
      · omega
  | a :: b :: c :: rest, h => by
      have ha : a < 256 := h a (by simp)
      have hb : b < 256 := h b (by simp)
      have hc : c < 256 := h c (by simp)
      have h1 : b64dec (b64enc (a / 4)) = a / 4 := b64dec_b64enc _ (by omega)
      have h2 : b64dec (b64enc (a % 4 * 16 + b / 16)) = a % 4 * 16 + b / 16 :=
        b64dec_b64enc _ (by omega)
      have h3 : b64dec (b64enc (b % 16 * 4 + c / 64)) = b % 16 * 4 + c / 64 :=
        b64dec_b64enc _ (by omega)
      have h4 : b64dec (b64enc (c % 64)) = c % 64 := b64dec_b64enc _ (by omega)
      have hy : b64enc (b % 16 * 4 + c / 64) ≠ 61 := b64enc_ne_pad _ (by omega)
      have hz : b64enc (c % 64) ≠ 61 := b64enc_ne_pad _ (by omega)
      have ih : decodeB64 (encodeB64 rest) = rest :=
        decodeB64_encodeB64 rest (fun x hx => h x (by simp [hx]))
      simp only [encodeB64, decodeB64, if_neg hy, if_neg hz, h1, h2, h3, h4, ih,
        List.cons.injEq, and_true]
      exact ⟨by omega, by omega, by omega⟩

theorem sanitizeByte_idem (c : Nat) :
    sanitizeByte (sanitizeByte c) = sanitizeByte c := by
  by_cases h : 35 ≤ c ∧ c ≤ 126
  · have hc : sanitizeByte c = c := if_pos h
    rw [hc]
    exact hc
  · have hc : sanitizeByte c = 46 := if_neg h
    rw [hc]
    decide

theorem countIncr_append (l1 l2 : List WorkerAction) :
    countIncr (l1 ++ l2) = countIncr l1 + countIncr l2 := by
  induction l1 with
  | nil => simp [countIncr]
  | cons a t ih =>
      cases a with
      | incr =>
          have h1 : countIncr ((WorkerAction.incr :: t) ++ l2) =
              countIncr (t ++ l2) + 1 := rfl
          have h2 : countIncr (WorkerAction.incr :: t) = countIncr t + 1 := rfl
          rw [h1, h2, ih]
          omega
      | push s =>
          have h1 : countIncr ((WorkerAction.push s :: t) ++ l2) =
              countIncr (t ++ l2) := rfl
          have h2 : countIncr (WorkerAction.push s :: t) = countIncr t := rfl
          rw [h1, h2, ih]

theorem countIncr_workerRun (l : List (BinEntry × RdbObject)) :
    countIncr (workerRun l) = l.length := by
  induction l with
  | nil => rfl
  | cons p t ih =>
      rw [workerRun, countIncr_append, ih]
      simp [processEntry, countIncr, Nat.add_comm]

theorem runWorkerT_cons_ok (dec : List Nat → Option Decoded) (e : BinEntry)
    (rest : List BinEntry) (lines : List OutputLine)
    (hl : decodeEntry dec e = some lines) :
    runWorkerT dec (e :: rest) =
      (lines :: (runWorkerT dec rest).1, (runWorkerT dec rest).2) := by
  simp [runWorkerT, hl]

theorem counterLE_applyEvent (s : Counters) (ev : CounterEvent) :
    counterLE s (applyEvent s ev) := by
  cases ev <;> simp [applyEvent, counterLE]

theorem counterLE_foldl (s : Counters) (evs : List CounterEvent) :
    counterLE s (evs.foldl applyEvent s) := by
  induction evs generalizing s with
  | nil => exact ⟨le_refl _, le_refl _, le_refl _⟩
  | cons ev t ih =>
      have h1 := counterLE_applyEvent s ev
      have h2 := ih (applyEvent s ev)
      exact ⟨le_trans h1.1 h2.1, le_trans h1.2.1 h2.2.1, le_trans h1.2.2 h2.2.2⟩

/-- C1: one record produces `outputCount` lines — 1 for a scalar, the
element count for a container — and the i-th line is built from the
i-th element of the container, so lines appear in exactly the internal
order of the container. -/
theorem claim_C1 (e : BinEntry) (o : RdbObject) :
    (flatten e o).length = outputCount o ∧
      (∀ v, o = .str v → flatten e o = [stringLineOf e v]) ∧
      (∀ xs i, o = .list xs →
        (flatten e o).get? i = (xs.get? i).map (listLineOf e i)) ∧
      (∀ ps i, o = .hash ps →
        (flatten e o).get? i = (ps.get? i).map (hashLineOf e)) ∧
      (∀ ms i, o = .set ms →
        (flatten e o).get? i = (ms.get? i).map (setLineOf e)) ∧
      (∀ es i, o = .zset es →
        (flatten e o).get? i = (es.get? i).map (zsetLineOf e)) := by
  refine ⟨?_, ?_, ?_, ?_, ?_, ?_⟩
  · cases o <;> simp [flatten, outputCount]
  · rintro v rfl
    rfl
  · rintro xs i rfl
    simp only [flatten, List.get?_map, List.get?_enum]
    cases xs.get? i <;> rfl
  · rintro ps i rfl
    simp only [flatten, List.get?_map]
  · rintro ms i rfl
    simp only [flatten, List.get?_map]
  · rintro es i rfl
    simp only [flatten, List.get?_map]

/-- Witness for C1: a two-element list record yields two lines, in
element order. -/
theorem claim_C1_witness :
    (flatten ⟨0, [107], 0, []⟩ (.list [[97], [98]])).length = 2 ∧
      (flatten ⟨0, [107], 0, []⟩ (.list [[97], [98]])).get? 0 =
        some (listLineOf ⟨0, [107], 0, []⟩ 0 [97]) ∧
      (flatten ⟨0, [107], 0, []⟩ (.list [[97], [98]])).get? 1 =
        some (listLineOf ⟨0, [107], 0, []⟩ 1 [98]) := by
  have h := claim_C1 ⟨0, [107], 0, []⟩ (.list [[97], [98]])
  refine ⟨h.1, ?_, ?_⟩
  · rw [h.2.2.1 [[97], [98]] 0 rfl]
    rfl
  · rw [h.2.2.1 [[97], [98]] 1 rfl]
    rfl

/-- C2: however the N input records are split among the P workers (any
split whose concatenation is a permutation of the stream), the total
number of `nentry` increments is exactly N: each worker increments once
per record it consumes, so the final counter value is N, independent of
P. -/
theorem claim_C2 (streams : List (List (BinEntry × RdbObject)))
    (records : List (BinEntry × RdbObject))
    (h : List.Perm streams.join records) :
    (streams.map (fun l => countIncr (workerRun l))).sum = records.length := by
  have hlen : streams.join.length = records.length := h.length_eq
  calc (streams.map (fun l => countIncr (workerRun l))).sum
      = (streams.map List.length).sum := by
        apply congrArg
        apply List.map_congr_left
        intro l _
        exact countIncr_workerRun l
    _ = streams.join.length := (List.length_join streams).symm
    _ = records.length := hlen

/-- Witness for C2: two workers splitting a three-record stream. -/
theorem claim_C2_witness :
    (sampleStreams.map (fun l => countIncr (workerRun l))).sum = 3 :=
  claim_C2 sampleStreams sampleStreams.join (List.Perm.refl _)

/-- C3: for every byte sequence `p`, `toText p` has the same length as
`p`, and at every position the output byte is the input byte if that
byte lies in `'#'`(35) .. `'~'`(126) and `'.'`(46) otherwise. -/
theorem claim_C3 (p : List Nat) :
    (toText p).length = p.length ∧
      ∀ i : Nat, (toText p).get? i =
        (p.get? i).map (fun c => if 35 ≤ c ∧ c ≤ 126 then c else 46) := by
  constructor
  · simp [toText]
  · intro i
    simp only [toText, List.get?_map]
    cases p.get? i <;> simp [sanitizeByte]

/-- C4: `toBase64` is standard Base64, so decoding an emitted
`key64`/`field64`/`member64`/`value64` field recovers exactly the
original bytes. -/
theorem claim_C4 (p : List Nat) (h : ∀ x ∈ p, x < 256) :
    decodeB64 (toBase64 p) = p :=
  decodeB64_encodeB64 p h

/-- Witness for C4 at the concrete bytes of `"foo"`. -/
theorem claim_C4_witness :
    (∀ x ∈ [102, 111, 111], x < 256) ∧
      decodeB64 (toBase64 [102, 111, 111]) = [102, 111, 111] :=
  ⟨by decide, claim_C4 [102, 111, 111] (by decide)⟩

/-- Counterexample to C5: for a two-element list record the worker
performs exactly one channel send (the whole buffer), not one send per
OutputItem, and the increment precedes the send; the claimed trace
differs from the actual one. -/
theorem claim_C5_cex :
    processEntry ⟨0, [107], 0, []⟩ (.list [[97], [98]]) ≠
        pushEachThenIncr ⟨0, [107], 0, []⟩ (.list [[97], [98]]) ∧
      countPush (processEntry ⟨0, [107], 0, []⟩ (.list [[97], [98]])) = 1 ∧
      (flatten ⟨0, [107], 0, []⟩ (.list [[97], [98]])).length = 2 := by
  refine ⟨?_, rfl, rfl⟩
  intro h
  have := congrArg List.length h
  simp [processEntry, pushEachThenIncr, flatten] at this

/-- C5 as amended: for every record the worker increments the
records-decoded counter exactly once and performs exactly one send on
the output queue — a single element containing all serialized
OutputItems of the record, in order — with the increment happening
before the send. -/
theorem claim_C5_amended (e : BinEntry) (o : RdbObject) :
    processEntry e o = [WorkerAction.incr, WorkerAction.push (flatten e o)] ∧
      countIncr (processEntry e o) = 1 ∧ countPush (processEntry e o) = 1 :=
  ⟨rfl, rfl, rfl⟩

/-- C6: if the decoder fails on some record (malformed payload or
unknown kind), the run aborts fatally: the run of the worker over
`pre ++ bad :: post` produces output only for the records of `pre`
(however long `post` is), and reports the abort. -/
theorem claim_C6 (dec : List Nat → Option Decoded) (pre post : List BinEntry)
    (bad : BinEntry) (hpre : ∀ x ∈ pre, decodeEntry dec x ≠ none)
    (hbad : decodeEntry dec bad = none) :
    ∃ outs : List (List OutputLine),
      runWorkerT dec (pre ++ bad :: post) = (outs, true) ∧
        outs.length = pre.length := by
  induction pre with
  | nil =>
      refine ⟨[], ?_, rfl⟩
      simp only [List.nil_append, runWorkerT, hbad]
  | cons e t ih =>
      have he : decodeEntry dec e ≠ none := hpre e (by simp)
      obtain ⟨lines, hl⟩ : ∃ l, decodeEntry dec e = some l := by
        cases h : decodeEntry dec e with
        | none => exact absurd h he
        | some l => exact ⟨l, rfl⟩
      obtain ⟨outs, hrun, hlen⟩ := ih (fun x hx => hpre x (by simp [hx]))
      refine ⟨lines :: outs, ?_, by simp [hlen]⟩
      rw [List.cons_append, runWorkerT_cons_ok dec e _ lines hl, hrun]

/-- Witness for C6: the second of three records hits the `default`
branch (unknown kind); only the lines of the first record are
produced. -/
theorem claim_C6_witness :
    ∃ outs : List (List OutputLine),
      runWorkerT (fun v => if v = [1] then some Decoded.other else
          some (Decoded.obj (RdbObject.str v)))
        ([⟨0, [], 0, [0]⟩] ++ ⟨0, [], 0, [1]⟩ :: [⟨0, [], 0, [2]⟩]) = (outs, true) ∧
        outs.length = 1 := by
  have h := claim_C6
    (fun v => if v = [1] then some Decoded.other else
      some (Decoded.obj (RdbObject.str v)))
    [⟨0, [], 0, [0]⟩] [⟨0, [], 0, [2]⟩] ⟨0, [], 0, [1]⟩
    (by intro x hx; simp at hx; subst hx; simp [decodeEntry])
    (by simp [decodeEntry])
  simpa using h

/-- C7: the concrete scalar record `db=0`, key `"foo"`, value `"bar"`,
`expireAt=0` yields exactly one line, of type `"string"`, with
`key = "foo"` (sanitized), `key64 = "Zm9v"`, `value64 = "YmFy"`. -/
theorem claim_C7 :
    flatten ⟨0, [102, 111, 111], 0, []⟩ (.str [98, 97, 114]) =
        [OutputLine.stringLine 0 0 [102, 111, 111]
          [90, 109, 57, 118] [89, 109, 70, 121]] ∧
      (flatten ⟨0, [102, 111, 111], 0, []⟩ (.str [98, 97, 114])).map lineType =
        [[115, 116, 114, 105, 110, 103]] := by
  constructor
  · rfl
  · rfl

/-- C8: every pipeline mutation of the shared counters is an increment
by a non-negative amount, so along any interleaving of mutations each
counter is monotonically non-decreasing (any prefix of the event
sequence yields pointwise smaller-or-equal counters), and the `Stat`
read of the monitor mutates nothing. -/
theorem claim_C8 (evs pre : List CounterEvent) (h : pre <+: evs) :
    counterLE (runCounters pre) (runCounters evs) ∧
      statOf (runCounters evs) = runCounters evs := by
  obtain ⟨t, rfl⟩ := h
  constructor
  · rw [runCounters, runCounters, List.foldl_append]
    exact counterLE_foldl _ t
  · rfl

/-- Witness for C8 on a concrete event sequence and prefix. -/
theorem claim_C8_witness :
    counterLE (runCounters [CounterEvent.readBytes 10])
        (runCounters [CounterEvent.readBytes 10, CounterEvent.entryDone,
          CounterEvent.wroteBytes 7]) ∧
      statOf (runCounters [CounterEvent.readBytes 10, CounterEvent.entryDone,
          CounterEvent.wroteBytes 7]) =
        runCounters [CounterEvent.readBytes 10, CounterEvent.entryDone,
          CounterEvent.wroteBytes 7] :=
  claim_C8 _ _ ⟨[CounterEvent.entryDone, CounterEvent.wroteBytes 7], rfl⟩

/-- C9: `toText` is idempotent, because every byte it outputs (either a
kept byte in 35..126 or `'.'` = 46) is itself in the range it keeps. -/
theorem claim_C9 (p : List Nat) : toText (toText p) = toText p := by
  simp only [toText, List.map_map]
  apply List.map_congr_left
  intro c _
  simp only [Function.comp_apply]
  exact sanitizeByte_idem c

/-- C10: a record decoding to an empty container still causes exactly
one queue send — of the empty string — and exactly one counter
increment, while contributing zero output lines and zero bytes to the
bytes-written counter (under any JSON serialization of lines). -/
theorem claim_C10 (e : BinEntry) (o : RdbObject)
    (hc : isContainer o = true) (hz : outputCount o = 0) :
    flatten e o = [] ∧
      processEntry e o = [WorkerAction.incr, WorkerAction.push []] ∧
      countPush (processEntry e o) = 1 ∧
      countIncr (processEntry e o) = 1 ∧
      ∀ ser : OutputLine → List Nat, bufLen ser (flatten e o) = 0 := by
  have hf : flatten e o = [] := by
    cases o with
    | str v => simp [isContainer] at hc
    | list xs =>
        cases xs with
        | nil => rfl
        | cons a t => simp [outputCount] at hz
    | hash ps =>
        cases ps with
        | nil => rfl
        | cons a t => simp [outputCount] at hz
    | set ms =>
        cases ms with
        | nil => rfl
        | cons a t => simp [outputCount] at hz
    | zset es =>
        cases es with
        | nil => rfl
        | cons a t => simp [outputCount] at hz
  refine ⟨hf, ?_, rfl, rfl, ?_⟩
  · simp [processEntry, hf]
  · intro ser
    simp [bufLen, hf]

/-- Witness for C10 at the empty list record. -/
theorem claim_C10_witness :
    isContainer (RdbObject.list []) = true ∧
      outputCount (RdbObject.list []) = 0 ∧
      flatten ⟨0, [107], 0, []⟩ (RdbObject.list []) = [] ∧
      bufLen (fun _ => [123, 125]) (flatten ⟨0, [107], 0, []⟩ (RdbObject.list [])) = 0 := by
  have h := claim_C10 ⟨0, [107], 0, []⟩ (RdbObject.list []) rfl rfl
  exact ⟨rfl, rfl, h.1, h.2.2.2.2 _⟩
